import Mathlib

/-
Shallow embedding of the fx-var-usdgtq acquisition-and-feature pipeline
(src/features.py, src/io.py) and proofs about its specified behaviour.

Modelling conventions:
* a pandas DataFrame cell that may be NaN is an `Option` value;
* dates are absolute day numbers (`Int`, days since 1970-01-01, so that
  `dayofweek d = (d + 3) % 7` with Monday = 0 matches pandas);
* rates and all derived numeric columns are exact rationals `Rat`;
* `pandas.sort_values("date")` (default kind quicksort, whose order
  among rows with equal dates pandas documents as unspecified) is
  modelled by `sortByDate`, an insertion sort by date; every theorem
  proved below that passes through `sortByDate` does so on rows whose
  dates are unique, or states a property insensitive to the order of
  equal-date rows, so none depends on the model's particular tie order;
* `drop_duplicates(subset=["date"], keep="last")` keeps a row exactly
  when no later row carries the same date;
* `numpy.log` and the square root inside `rolling(...).std(ddof=0)` are
  irrational-valued, so they are passed in as function parameters: the
  properties proved here never depend on their values, only on where
  they are defined (both are total on the positive inputs they receive).
-/

namespace FxVar

/-- One raw input row: the date and rate cells, each possibly missing (NaN). -/
structure RawRow where
  date : Option Int
  rate : Option Rat
deriving DecidableEq, Repr

/-- A raw table: its column names and its (date, rate) cells.
Cells of columns other than date/rate never flow into the pipeline
(`clean` selects exactly the required columns), so they are not kept. -/
structure RawTable where
  cols : List String
  rows : List RawRow
deriving DecidableEq, Repr

/-- A cleaned observation: (date as day number, rate). -/
abbrev Obs := Int × Rat

/-- Insert an observation into a list, before the first entry whose date is
not smaller. -/
def insertByDate (x : Obs) : List Obs → List Obs
  | [] => [x]
  | y :: ys => if x.1 ≤ y.1 then x :: y :: ys else y :: insertByDate x ys

/-- Sort by date, modelling `DataFrame.sort_values("date")`.  The source
uses the default quicksort, whose relative order of rows with equal dates
is unspecified; accordingly nothing proved below about a sorted list
depends on where equal-date rows land relative to each other. -/
def sortByDate : List Obs → List Obs
  | [] => []
  | x :: xs => insertByDate x (sortByDate xs)

/-- `drop_duplicates(subset=["date"], keep="last")`: keep a row exactly when
no later row has the same date. -/
def dropDupKeepLast : List Obs → List Obs
  | [] => []
  | x :: xs =>
    if xs.any (fun y => y.1 == x.1) then dropDupKeepLast xs
    else x :: dropDupKeepLast xs

/-- `Series.is_monotonic_increasing` (non-strict) on a list of dates. -/
def intsMonotone : List Int → Bool
  | [] => true
  | [_] => true
  | x :: y :: rest => decide (x ≤ y) && intsMonotone (y :: rest)

/-- `Series.duplicated().any()` on a list of dates. -/
def intsHasDup : List Int → Bool
  | [] => false
  | x :: xs => xs.any (fun y => y == x) || intsHasDup xs

/-- The strict input schema `REQUIRED_INPUT_COLUMNS = ["date", "rate"]`. -/
def requiredInputColumns : List String := ["date", "rate"]

/-- The required columns absent from a table, in required order
(the list comprehension at the top of `clean`). -/
def missingColumns (cols : List String) : List String :=
  requiredInputColumns.filter (fun c => !(cols.contains c))

/-- `", ".join(...)`. -/
def joinComma : List String → String
  | [] => ""
  | [c] => c
  | c :: rest => c ++ ", " ++ joinComma rest

/-- The rows kept by `clean`'s column selection and
`dropna(subset=["date", "rate"])`. -/
def keptRows (t : RawTable) : List Obs :=
  t.rows.filterMap (fun r =>
    match r.date, r.rate with
    | some d, some v => some ((d, v) : Obs)
    | _, _ => none)

/-- `clean`'s data pipeline: dropna, (identity) type coercion, stable sort
by date, keep-last deduplication. -/
def cleanedRows (t : RawTable) : List Obs :=
  dropDupKeepLast (sortByDate (keptRows t))

/-- `features.clean`: schema check, dropna over date/rate, type coercion
(identity here, cells being already typed), stable sort by date,
keep-last dedup, then the defensive invariant re-checks. -/
def clean (t : RawTable) : Except String (List Obs) :=
  if missingColumns t.cols ≠ [] then
    .error ("Input data is missing required columns: " ++
      joinComma (missingColumns t.cols) ++ ".")
  else if (cleanedRows t).isEmpty then
    .error "No rows remain after cleaning."
  else if (cleanedRows t).any (fun r => decide (r.2 ≤ 0)) then
    .error "All rates must be strictly positive for return calculations."
  else if !intsMonotone ((cleanedRows t).map Prod.fst) then
    .error "Dates must be sorted ascending after cleaning."
  else if intsHasDup ((cleanedRows t).map Prod.fst) then
    .error "Dates must be unique after cleaning."
  else
    .ok (cleanedRows t)

/-- Re-present a cleaned result as a raw table (exactly the two required
columns, no missing cells), as when `clean`'s output is fed back to it. -/
def tableOfClean (c : List Obs) : RawTable :=
  { cols := requiredInputColumns
    rows := c.map (fun r => { date := some r.1, rate := some r.2 }) }

/-- The tail of `io.download_data` after all chunks are decoded
(lines 236-247): fail on an empty decode, otherwise coerce, stable-sort by
date and deduplicate keeping the last occurrence. -/
def downloadFromRows (startIso endIso : String) (rows : List Obs) :
    Except String (List Obs) :=
  if rows.isEmpty then
    .error ("No FX rows were returned from Banguat for the requested range " ++
      startIso ++ " to " ++ endIso ++ ".")
  else
    .ok (dropDupKeepLast (sortByDate rows))

/-! ### Feature construction (`features.build_features`) -/

/-- Stable insertion for sorting natural numbers. -/
def insertNatSorted (x : Nat) : List Nat → List Nat
  | [] => [x]
  | y :: ys => if x ≤ y then x :: y :: ys else y :: insertNatSorted x ys

/-- Sort a list of naturals ascending. -/
def sortNats : List Nat → List Nat
  | [] => []
  | x :: xs => insertNatSorted x (sortNats xs)

/-- Remove adjacent duplicates from a sorted list. -/
def dedupSorted : List Nat → List Nat
  | [] => []
  | [x] => [x]
  | x :: y :: rest =>
    if x == y then dedupSorted (y :: rest) else x :: dedupSorted (y :: rest)

/-- `_validate_lags` normalization `tuple(sorted(set(lags)))` on
already-validated positive lags. -/
def normalizeLags (lags : List Int) : List Nat :=
  dedupSorted (sortNats (lags.map Int.toNat))

/-- The largest configured lag. -/
def maxLag (lags : List Nat) : Nat := lags.foldr max 0

/-- `return_simple` at position `t` of the cleaned series:
`rate / rate.shift(1) - 1`, NaN on the first row. -/
def retSimple (c : List Obs) (t : Nat) : Option Rat :=
  if t = 0 then none
  else
    match c.get? t, c.get? (t - 1) with
    | some a, some b => some (a.2 / b.2 - 1)
    | _, _ => none

/-- `return_log` at position `t`: `log(rate / rate.shift(1))`, NaN on the
first row; the log itself is the supplied external function. -/
def retLog (logFn : Rat → Rat) (c : List Obs) (t : Nat) : Option Rat :=
  if t = 0 then none
  else
    match c.get? t, c.get? (t - 1) with
    | some a, some b => some (logFn (a.2 / b.2))
    | _, _ => none

/-- `pnl` at position `t`: `notional * return_simple`. -/
def pnlAt (notional : Rat) (c : List Obs) (t : Nat) : Option Rat :=
  (retSimple c t).map (fun r => notional * r)

/-- `Series.shift(lag)` for a positive `lag`: the value `lag` steps back,
NaN while fewer than `lag` observations precede. -/
def shiftPos (s : Nat → Option Rat) (lag t : Nat) : Option Rat :=
  if lag ≤ t then s (t - lag) else none

/-- The index window `rolling(window=lag)` looks at when positioned at `t`:
positions `t - lag + 1 .. t` clipped at zero. -/
def windowIdx (lag t : Nat) : List Nat :=
  (List.range (t + 1)).filter (fun j => t < j + lag)

/-- Values present (non-NaN) in the rolling window. -/
def windowVals (s : Nat → Option Rat) (lag t : Nat) : List Rat :=
  (windowIdx lag t).filterMap s

/-- The mean of the rolling window's present values. -/
def windowMean (s : Nat → Option Rat) (lag t : Nat) : Rat :=
  (windowVals s lag t).sum / ((windowVals s lag t).length : Rat)

/-- `rolling(window=lag, min_periods=lag).mean()`: the mean of the window's
present values, defined once at least `lag` of them exist. -/
def rollMean (s : Nat → Option Rat) (lag t : Nat) : Option Rat :=
  if lag ≤ (windowVals s lag t).length then some (windowMean s lag t) else none

/-- `rolling(window=lag, min_periods=lag).std(ddof=0)`: the square root of
the population variance of the window's present values; the square root is
the supplied external function. -/
def rollVol (sqrtFn : Rat → Rat) (s : Nat → Option Rat) (lag t : Nat) :
    Option Rat :=
  if lag ≤ (windowVals s lag t).length then
    some (sqrtFn
      (((windowVals s lag t).map (fun x => (x - windowMean s lag t) ^ 2)).sum /
        ((windowVals s lag t).length : Rat)))
  else none

/-- `pandas .dt.dayofweek` on a day number (Monday = 0; day 0 is
1970-01-01, a Thursday). -/
def dayOfWeek (d : Int) : Int := (d + 3) % 7

/-- `is_weekend`: 1 when the weekday is Saturday or Sunday, else 0. -/
def weekendFlag (d : Int) : Int := if 5 ≤ dayOfWeek d then 1 else 0

/-- The five per-lag feature cells of one row. -/
structure LagCells where
  lag : Nat
  returnSimpleLag : Option Rat
  returnLogLag : Option Rat
  pnlLag : Option Rat
  rollMeanCell : Option Rat
  rollVolCell : Option Rat
deriving DecidableEq, Repr

/-- One row of the feature frame; cells that may be NaN are `Option`. -/
structure FeatRow where
  date : Int
  rate : Rat
  returnSimple : Option Rat
  returnLog : Option Rat
  pnl : Option Rat
  pnlNextDay : Option Rat
  isWeekendCell : Int
  lagCells : List LagCells
deriving DecidableEq, Repr

/-- The feature-frame row built at position `t` of the cleaned series. -/
def buildRow (logFn sqrtFn : Rat → Rat) (notional : Rat) (lags : List Nat)
    (c : List Obs) (t : Nat) : FeatRow :=
  { date := ((c.get? t).map Prod.fst).getD 0
    rate := ((c.get? t).map Prod.snd).getD 0
    returnSimple := retSimple c t
    returnLog := retLog logFn c t
    pnl := pnlAt notional c t
    pnlNextDay := pnlAt notional c (t + 1)
    isWeekendCell := weekendFlag (((c.get? t).map Prod.fst).getD 0)
    lagCells := lags.map (fun lag =>
      { lag := lag
        returnSimpleLag := shiftPos (retSimple c) lag t
        returnLogLag := shiftPos (retLog logFn c) lag t
        pnlLag := shiftPos (pnlAt notional c) lag t
        rollMeanCell := rollMean (retSimple c) lag t
        rollVolCell := rollVol sqrtFn (retSimple c) lag t }) }

/-- All five cells of a lag block are present. -/
def lagCellsComplete (lc : LagCells) : Bool :=
  lc.returnSimpleLag.isSome && lc.returnLogLag.isSome && lc.pnlLag.isSome &&
    lc.rollMeanCell.isSome && lc.rollVolCell.isSome

/-- A row survives `dropna()`: no cell of any column is missing. -/
def rowComplete (r : FeatRow) : Bool :=
  r.returnSimple.isSome && r.returnLog.isSome && r.pnl.isSome &&
    r.pnlNextDay.isSome && r.lagCells.all lagCellsComplete

/-- The feature rows surviving `dropna()`: one candidate row per position
of the cleaned series, filtered to the fully-populated ones. -/
def featRows (logFn sqrtFn : Rat → Rat) (notional : Rat) (lags : List Nat)
    (c : List Obs) : List FeatRow :=
  ((List.range c.length).map (buildRow logFn sqrtFn notional lags c)).filter
    rowComplete

/-- `features.build_features`: input-schema, notional and lag validation,
`clean`, per-row derived columns, `dropna`, and the defensive re-checks. -/
def buildFeatures (logFn sqrtFn : Rat → Rat) (t : RawTable)
    (notional : Rat) (lags : List Int) : Except String (List FeatRow) :=
  if t.cols ≠ requiredInputColumns then
    .error "build_features requires strict input columns in this order: date, rate."
  else if notional ≤ 0 then
    .error "notional_usd must be strictly positive."
  else if lags.isEmpty then
    .error "At least one lag must be provided."
  else if lags.any (fun lag => decide (lag ≤ 0)) then
    .error "All lags must be positive integers."
  else
    match clean t with
    | .error e => .error e
    | .ok c =>
      if (featRows logFn sqrtFn notional (normalizeLags lags) c).isEmpty then
        .error ("Insufficient rows after lag/rolling/target construction. " ++
          "Provide a longer history or smaller lag windows.")
      else if (featRows logFn sqrtFn notional (normalizeLags lags) c).any
          (fun r => !rowComplete r) then
        .error "Feature frame contains NaNs after cleanup."
      else if !intsMonotone ((featRows logFn sqrtFn notional
          (normalizeLags lags) c).map FeatRow.date) then
        .error "Feature dates must remain sorted ascending."
      else if intsHasDup ((featRows logFn sqrtFn notional
          (normalizeLags lags) c).map FeatRow.date) then
        .error "Feature dates must remain unique."
      else
        .ok (featRows logFn sqrtFn notional (normalizeLags lags) c)

/-- The column names of the feature frame, in construction order. -/
def featColumns (lags : List Nat) : List String :=
  ["date", "rate", "return_simple", "return_log", "pnl", "pnl_next_day",
    "is_weekend"] ++
  lags.flatMap (fun lag =>
    ["return_simple_lag_" ++ toString lag,
     "return_log_lag_" ++ toString lag,
     "pnl_lag_" ++ toString lag,
     "roll_mean_return_simple_" ++ toString lag,
     "roll_vol_return_simple_" ++ toString lag])

/-- One row of a feature frame as the Time Splitter sees it: its date and
its target-column value (the other feature cells play no part in the
splitter's behaviour). -/
structure SplitRow where
  date : Int
  target : Rat
deriving DecidableEq, Repr

/-- A feature frame presented to `train_test_split_time`: column names
plus the per-row date/target cells. -/
structure SplitTable where
  cols : List String
  rows : List SplitRow
deriving DecidableEq, Repr

/-- `TARGET_COLUMN`. -/
def targetColumn : String := "pnl_next_day"

/-- `features.train_test_split_time`: validation checks in source order,
then the chronological split at `len - test_days`. Train/test feature
parts are returned as row lists (column selection drops only the target
column and affects no row count or date). -/
def trainTestSplitTime (t : SplitTable) (testDays : Int) (targetCol : String) :
    Except String (List SplitRow × List SplitRow × List Rat × List Rat) :=
  if !(t.cols.contains targetCol) then
    .error ("target_col \x27" ++ targetCol ++ "\x27 is not present in feature frame.")
  else if testDays ≤ 0 then
    .error "test_days must be a positive integer."
  else if !(t.cols.contains "date") then
    .error "Feature frame must contain a \x27date\x27 column for time split."
  else if !intsMonotone (t.rows.map SplitRow.date) then
    .error "Feature frame must be sorted by date before time split."
  else if intsHasDup (t.rows.map SplitRow.date) then
    .error "Feature frame contains duplicate dates."
  else if (t.rows.length : Int) ≤ testDays then
    .error ("Feature frame has " ++ toString t.rows.length ++
      " rows, which is not enough for test_days=" ++ toString testDays ++ ".")
  else
    let splitIdx := t.rows.length - testDays.toNat
    .ok (t.rows.take splitIdx, t.rows.drop splitIdx,
      (t.rows.take splitIdx).map SplitRow.target,
      (t.rows.drop splitIdx).map SplitRow.target)

/-- Present a built feature frame to the Time Splitter: its column names
and, per row, the date and target cells the splitter inspects. A feature
row that survived `dropna` has a present target, read with `getD`. -/
def splitTableOfFeats (lags : List Nat) (feats : List FeatRow) : SplitTable :=
  { cols := featColumns lags
    rows := feats.map (fun r => { date := r.date, target := r.pnlNextDay.getD 0 }) }

/-! ### Calendar dates and the Range Partitioner (`io._iter_yearly_ranges`) -/

/-- A calendar date as Python's `datetime.date` carries it. -/
structure CalDate where
  year : Int
  month : Nat
  day : Nat
deriving DecidableEq, Repr

/-- Gregorian leap-year rule. -/
def isLeapYear (y : Int) : Bool :=
  (y % 4 == 0 && y % 100 != 0) || y % 400 == 0

/-- Days in a Gregorian month. -/
def daysInMonth (y : Int) (m : Nat) : Nat :=
  if m == 2 then (if isLeapYear y then 29 else 28)
  else if m == 4 || m == 6 || m == 9 || m == 11 then 30
  else 31

/-- A representable calendar date. -/
def validDate (d : CalDate) : Prop :=
  1 ≤ d.month ∧ d.month ≤ 12 ∧ 1 ≤ d.day ∧ d.day ≤ daysInMonth d.year d.month

instance (d : CalDate) : Decidable (validDate d) := by
  unfold validDate; infer_instance

/-- Lexicographic date comparison (`a ≤ b`). -/
def dateLE (a b : CalDate) : Bool :=
  a.year < b.year ||
    (a.year == b.year &&
      (a.month < b.month || (a.month == b.month && a.day ≤ b.day)))

/-- Lexicographic date comparison (`a < b`). -/
def dateLT (a b : CalDate) : Bool :=
  a.year < b.year ||
    (a.year == b.year &&
      (a.month < b.month || (a.month == b.month && a.day < b.day)))

/-- Python's `date + timedelta(days=1)`. -/
def nextDay (d : CalDate) : CalDate :=
  if d.day < daysInMonth d.year d.month then ⟨d.year, d.month, d.day + 1⟩
  else if d.month < 12 then ⟨d.year, d.month + 1, 1⟩
  else ⟨d.year + 1, 1, 1⟩

/-- `date(cursor.year, 12, 31)`. -/
def yearEnd (y : Int) : CalDate := ⟨y, 12, 31⟩

/-- `min` of two dates. -/
def minDate (a b : CalDate) : CalDate := if dateLE a b then a else b

/-- The loop body of `_iter_yearly_ranges`, with explicit fuel: each
iteration either finishes the requested interval or advances the cursor to
the next January 1st, so `end.year - start.year + 1` iterations always
suffice (proved below). -/
def iterYearlyRangesAux (e : CalDate) : Nat → CalDate → List (CalDate × CalDate)
  | 0, _ => []
  | fuel + 1, cursor =>
    if dateLE cursor e then
      (cursor, minDate (yearEnd cursor.year) e) ::
        iterYearlyRangesAux e fuel (nextDay (minDate (yearEnd cursor.year) e))
    else []

/-- `io._iter_yearly_ranges`. -/
def iterYearlyRanges (s e : CalDate) : List (CalDate × CalDate) :=
  iterYearlyRangesAux e (e.year - s.year + 1).toNat s

/-- The Range Partitioner contract on a chunk list: the first chunk starts
at `s`, each chunk is well-ordered and confined to one calendar year, each
later chunk starts the day after its predecessor ends, and the final chunk
ends at `e`.  Together with `nextDay` strictly advancing, this packages
contiguity, non-overlap and exact cover of `[s, e]`. -/
def isChunking (s e : CalDate) : List (CalDate × CalDate) → Bool
  | [] => false
  | [(a, b)] => a == s && dateLE a b && (a.year == b.year) && b == e
  | (a, b) :: c :: rest =>
    a == s && dateLE a b && (a.year == b.year) &&
      isChunking (nextDay b) e (c :: rest)

/-! ### Response decoding (`io._extract_rows_from_payload`) -/

/-- An XML element as `xml.etree.ElementTree` sees it: its (namespaced)
tag, its text, and its child elements. -/
inductive Xml where
  | elem (tag : String) (text : Option String) (children : List Xml)

/-- The element's tag. -/
def Xml.tag : Xml → String
  | .elem t _ _ => t

/-- The element's text. -/
def Xml.text : Xml → Option String
  | .elem _ x _ => x

/-- The element's children. -/
def Xml.children : Xml → List Xml
  | .elem _ _ ch => ch

/-- The element followed by its descendants, in document (preorder) order. -/
def Xml.selfAndDesc : Xml → List Xml
  | .elem t x ch =>
    .elem t x ch :: (ch.attach.flatMap (fun c => Xml.selfAndDesc c.1))
decreasing_by
  have h := List.sizeOf_lt_of_mem c.2
  simp only [Xml.elem.sizeOf_spec]
  omega

/-- All proper descendants of an element in document order: what an
ElementTree `.//` path ranges over (the element itself is excluded). -/
def descOf (x : Xml) : List Xml := x.children.flatMap Xml.selfAndDesc

/-- `ElementTree.findtext` with a plain child-tag path: the text of the
first matching child, the empty string when that child has no text, and
`none` when no child matches. -/
def childText (x : Xml) (tag : String) : Option String :=
  (x.children.find? (fun c => c.tag == tag)).map (fun c => c.text.getD "")

/-- `config.BANGUAT_WSDL_ENDPOINT`. -/
def banguatEndpoint : String := "https://banguat.gob.gt/variables/ws/TipoCambio.asmx"

/-- `SOAP_ENVELOPE_NAMESPACE`. -/
def soapEnvelopeNs : String := "http://schemas.xmlsoap.org/soap/envelope/"

/-- `SOAP_NAMESPACE`. -/
def soapNs : String := "http://www.banguat.gob.gt/variables/ws/"

/-- An ElementTree namespaced tag. -/
def nsTag (ns tag : String) : String := "\x7b" ++ ns ++ "\x7d" ++ tag

/-- Zero-padded two-digit rendering. -/
def pad2 (n : Nat) : String := if n < 10 then "0" ++ toString n else toString n

/-- Python's `str(date)`: ISO `YYYY-MM-DD` (years here are four-digit). -/
def toIso (d : CalDate) : String :=
  toString d.year ++ "-" ++ pad2 d.month ++ "-" ++ pad2 d.day

/-- Decode one `<Var>` row: require `fecha` and `venta`, parse the date as
`DD/MM/YYYY` and the rate as a number (the two text parsers are supplied),
and emit `(iso date, rate)`. -/
def decodeVar (parseDate : String → Option CalDate)
    (parseRate : String → Option Rat) (s e : CalDate) (node : Xml) :
    Except String (String × Rat) :=
  match childText node (nsTag soapNs "fecha"), childText node (nsTag soapNs "venta") with
  | some rawDate, some rawRate =>
    match parseDate rawDate with
    | none =>
      .error ("Banguat returned non-parseable fecha \x27" ++ rawDate ++
        "\x27 for range " ++ toIso s ++ " to " ++ toIso e ++ ".")
    | some pd =>
      match parseRate rawRate with
      | none =>
        .error ("Banguat returned non-numeric venta \x27" ++ rawRate ++
          "\x27 for range " ++ toIso s ++ " to " ++ toIso e ++ ".")
      | some pr => .ok (toIso pd, pr)
  | _, _ =>
    .error ("Banguat response row missing required fields \x27fecha\x27/\x27venta\x27 for range " ++
      toIso s ++ " to " ++ toIso e ++ ".")

/-- Decode a list of `<Var>` rows in document order. -/
def decodeVars (parseDate : String → Option CalDate)
    (parseRate : String → Option Rat) (s e : CalDate) :
    List Xml → Except String (List (String × Rat))
  | [] => .ok []
  | n :: rest => do
    let r ← decodeVar parseDate parseRate s e n
    let rs ← decodeVars parseDate parseRate s e rest
    pure (r :: rs)

/-- `io._extract_rows_from_payload` on an already-parsed XML document:
search the root's proper descendants for an envelope-namespaced `Fault`
(ElementTree's `.//` never matches the root itself); on a fault, fail with
the endpoint, the range, and the fault's message text (`faultstring` child
text, with empty or absent text replaced by a default); otherwise decode
every `ws`-namespaced `Var` descendant in document order. -/
def extractRows (parseDate : String → Option CalDate)
    (parseRate : String → Option Rat) (root : Xml) (s e : CalDate) :
    Except String (List (String × Rat)) :=
  match (descOf root).find? (fun n => n.tag == nsTag soapEnvelopeNs "Fault") with
  | some fault =>
    let faultMessage :=
      match childText fault "faultstring" with
      | some msg => if msg == "" then "Unknown SOAP fault." else msg
      | none => "Unknown SOAP fault."
    .error ("Banguat SOAP fault from endpoint " ++ banguatEndpoint ++
      " for range " ++ toIso s ++ " to " ++ toIso e ++ ": " ++ faultMessage)
  | none =>
    decodeVars parseDate parseRate s e
      ((descOf root).filter (fun n => n.tag == nsTag soapNs "Var"))

/-- One string occurs inside another (stated over the character lists, so
that ordinary list lemmas apply). -/
def strIncludes (hay needle : String) : Prop :=
  ∃ a b, hay.data = a ++ needle.data ++ b

/-! ### Concrete inputs used by witnesses and counterexamples -/

/-- A five-observation raw table with consecutive dates and rates 1..5. -/
def rawExample : RawTable :=
  ⟨["date", "rate"],
    [⟨some 0, some 1⟩, ⟨some 1, some 2⟩, ⟨some 2, some 3⟩,
     ⟨some 3, some 4⟩, ⟨some 4, some 5⟩]⟩

/-- A three-row feature frame for the Time Splitter. -/
def splitExample : SplitTable :=
  ⟨["date", "pnl_next_day"], [⟨1, 10⟩, ⟨2, 20⟩, ⟨3, 30⟩]⟩

/-- The feature rows built from `rawExample` with lag 1 and notional 100
(log and square root instantiated at the identity, immaterial here). -/
def featsExample : List FeatRow :=
  featRows id id 100 [1] [(0, 1), (1, 2), (2, 3), (3, 4), (4, 5)]

/-- The end-to-end scenario's raw series: 700 consecutive daily rows
starting 2024-01-01 (day number 19723), with a caller-chosen rate path. -/
def raw700 (rate : Nat → Rat) : RawTable :=
  ⟨["date", "rate"],
    (List.range 700).map (fun i : Nat => ⟨some (19723 + (i : Int)), some (rate i)⟩)⟩

/-- The lag set of the end-to-end scenario. -/
def scenarioLags : List Int := [1, 5, 10, 20, 60]

/-- The cleaned series of the end-to-end scenario. -/
def c700 (rate : Nat → Rat) : List Obs :=
  (List.range 700).map (fun i : Nat => ((19723 + (i : Int), rate i) : Obs))

/-- The feature table the code builds in the end-to-end scenario when every
rate is 1 (log and square root instantiated at the zero function, which is
exact there). -/
def feats700 : List FeatRow :=
  (buildFeatures (fun _ => 0) (fun _ => 0) (raw700 (fun _ => 1)) 10000
    scenarioLags).toOption.getD []

/-- A SOAP fault response as the service actually nests it:
Envelope / Body / Fault / faultstring. -/
def faultNestedPayload : Xml :=
  .elem (nsTag soapEnvelopeNs "Envelope") none
    [.elem (nsTag soapEnvelopeNs "Body") none
      [.elem (nsTag soapEnvelopeNs "Fault") none
        [.elem "faultstring" (some "Server was unable to process request.") []]]]

/-- A payload whose root element is itself the envelope-namespaced Fault. -/
def faultRootPayload : Xml :=
  .elem (nsTag soapEnvelopeNs "Fault") none
    [.elem "faultstring" (some "Server was unable to process request.") []]

/-! ### Sorted, duplicate-free inputs are fixed points of sort and dedup -/

theorem sortByDate_of_monotone : ∀ {l : List Obs},
    intsMonotone (l.map Prod.fst) = true → sortByDate l = l
  | [], _ => rfl
  | [x], _ => rfl
  | x :: y :: rest, h => by
    rw [List.map_cons, List.map_cons, intsMonotone] at h
    simp only [Bool.and_eq_true, decide_eq_true_eq] at h
    have h2 : intsMonotone ((y :: rest).map Prod.fst) = true := by
      rw [List.map_cons]
      exact h.2
    rw [sortByDate, sortByDate_of_monotone h2, insertByDate, if_pos h.1]

theorem dropDupKeepLast_of_nodupDates : ∀ {l : List Obs},
    intsHasDup (l.map Prod.fst) = false → dropDupKeepLast l = l
  | [], _ => rfl
  | x :: xs, h => by
    rw [List.map_cons, intsHasDup] at h
    have h0 := Bool.or_eq_false_iff.mp h
    have hany : xs.any (fun y => y.1 == x.1) = false := by
      simpa [List.any_map, Function.comp] using h0.1
    rw [dropDupKeepLast, if_neg (by simp [hany]),
      dropDupKeepLast_of_nodupDates h0.2]

/-! ### Inversion of a successful `clean` -/

theorem clean_ok_inv {x : RawTable} {c : List Obs} (h : clean x = .ok c) :
    c.isEmpty = false ∧ c.any (fun r => decide (r.2 ≤ 0)) = false ∧
      intsMonotone (c.map Prod.fst) = true ∧
      intsHasDup (c.map Prod.fst) = false ∧ c = cleanedRows x := by
  unfold clean at h
  split at h
  · cases h
  · split at h
    · cases h
    · split at h
      · cases h
      · split at h
        · cases h
        · split at h
          · cases h
          · rename_i h1 h2 h3 h4 h5
            cases h
            refine ⟨by simpa using h2, by simpa using h3, ?_, by simpa using h5, rfl⟩
            have := h4
            simp only [Bool.not_eq_true] at this
            simpa using this

/-! ### Helper lemmas on the date-list checks -/

theorem intsMonotone_of_pairwise : ∀ {ds : List Int},
    ds.Pairwise (· < ·) → intsMonotone ds = true
  | [], _ => rfl
  | [_], _ => rfl
  | x :: y :: rest, h => by
    have hxy : x < y := (List.pairwise_cons.mp h).1 y (by simp)
    have ht : (y :: rest).Pairwise (· < ·) := (List.pairwise_cons.mp h).2
    rw [intsMonotone]
    simp [hxy.le, intsMonotone_of_pairwise ht]

theorem intsHasDup_of_pairwise : ∀ {ds : List Int},
    ds.Pairwise (· < ·) → intsHasDup ds = false
  | [], _ => rfl
  | x :: xs, h => by
    have h1 : ∀ y ∈ xs, x < y := (List.pairwise_cons.mp h).1
    rw [intsHasDup]
    have hany : xs.any (fun y => y == x) = false := by
      rw [List.any_eq_false]
      intro y hy
      simp [Int.ne_of_gt (h1 y hy)]
    simp [hany, intsHasDup_of_pairwise (List.pairwise_cons.mp h).2]

/-! ### The Time Splitter -/

theorem trainTestSplitTime_ok (t : SplitTable) (k : Int) (tc : String)
    (hcol : t.cols.contains tc = true) (hdate : t.cols.contains "date" = true)
    (hsorted : (t.rows.map SplitRow.date).Pairwise (· < ·))
    (hk : 0 < k) (hN : k < (t.rows.length : Int)) :
    trainTestSplitTime t k tc =
      .ok (t.rows.take (t.rows.length - k.toNat),
        t.rows.drop (t.rows.length - k.toNat),
        (t.rows.take (t.rows.length - k.toNat)).map SplitRow.target,
        (t.rows.drop (t.rows.length - k.toNat)).map SplitRow.target) := by
  unfold trainTestSplitTime
  rw [hcol, hdate]
  rw [if_neg (by simp), if_neg (by omega), if_neg (by simp),
    if_neg (by simp [intsMonotone_of_pairwise hsorted]),
    if_neg (by simp [intsHasDup_of_pairwise hsorted]), if_neg (by omega)]

theorem trainTestSplitTime_sizing_error (t : SplitTable) (k : Int) (tc : String)
    (hcol : t.cols.contains tc = true) (hdate : t.cols.contains "date" = true)
    (hsorted : (t.rows.map SplitRow.date).Pairwise (· < ·))
    (hk : 0 < k) (hN : (t.rows.length : Int) ≤ k) :
    trainTestSplitTime t k tc =
      .error ("Feature frame has " ++ toString t.rows.length ++
        " rows, which is not enough for test_days=" ++ toString k ++ ".") := by
  unfold trainTestSplitTime
  rw [hcol, hdate]
  rw [if_neg (by simp), if_neg (by omega), if_neg (by simp),
    if_neg (by simp [intsMonotone_of_pairwise hsorted]),
    if_neg (by simp [intsHasDup_of_pairwise hsorted]), if_pos hN]

theorem take_drop_dates_lt (rows : List SplitRow) (m : Nat)
    (hsorted : (rows.map SplitRow.date).Pairwise (· < ·)) :
    ∀ d1 ∈ (rows.take m).map SplitRow.date,
    ∀ d2 ∈ (rows.drop m).map SplitRow.date, d1 < d2 := by
  have hsplit : (rows.map SplitRow.date).take m ++ (rows.map SplitRow.date).drop m =
      rows.map SplitRow.date := List.take_append_drop _ _
  rw [← hsplit] at hsorted
  have := (List.pairwise_append.mp hsorted).2.2
  intro d1 h1 d2 h2
  exact this d1 (by simpa [List.map_take] using h1) d2 (by simpa [List.map_drop] using h2)

/-- C2: on a feature table with unique ascending dates that contains the
target and date columns, a positive `test_days = k` with `k < N` yields a
split at index `N - k` with `k` test rows, `N - k` train rows, and every
train date strictly before every test date; with `N ≤ k` it raises the
sizing error instead. -/
theorem trainTestSplitTime_spec (t : SplitTable) (k : Int) (tc : String)
    (hcol : t.cols.contains tc = true) (hdate : t.cols.contains "date" = true)
    (hsorted : (t.rows.map SplitRow.date).Pairwise (· < ·)) (hk : 0 < k) :
    (k < (t.rows.length : Int) →
      trainTestSplitTime t k tc =
        .ok (t.rows.take (t.rows.length - k.toNat),
          t.rows.drop (t.rows.length - k.toNat),
          (t.rows.take (t.rows.length - k.toNat)).map SplitRow.target,
          (t.rows.drop (t.rows.length - k.toNat)).map SplitRow.target) ∧
      ((t.rows.drop (t.rows.length - k.toNat)).length : Int) = k ∧
      ((t.rows.take (t.rows.length - k.toNat)).length : Int) =
        (t.rows.length : Int) - k ∧
      (∀ d1 ∈ (t.rows.take (t.rows.length - k.toNat)).map SplitRow.date,
       ∀ d2 ∈ (t.rows.drop (t.rows.length - k.toNat)).map SplitRow.date,
        d1 < d2)) ∧
    ((t.rows.length : Int) ≤ k →
      trainTestSplitTime t k tc =
        .error ("Feature frame has " ++ toString t.rows.length ++
          " rows, which is not enough for test_days=" ++ toString k ++ ".")) := by
  constructor
  · intro hN
    refine ⟨trainTestSplitTime_ok t k tc hcol hdate hsorted hk hN, ?_, ?_,
      take_drop_dates_lt t.rows _ hsorted⟩
    · rw [List.length_drop]; omega
    · rw [List.length_take]; omega
  · intro hN
    exact trainTestSplitTime_sizing_error t k tc hcol hdate hsorted hk hN

/-- C2 witness: the split theorem instantiated on a concrete three-row
table with `test_days = 1`. -/
theorem trainTestSplitTime_spec_witness :
    trainTestSplitTime splitExample 1 "pnl_next_day" =
      .ok ([⟨1, 10⟩, ⟨2, 20⟩], [⟨3, 30⟩], [10, 20], [30]) := by
  have h := (trainTestSplitTime_spec splitExample 1 "pnl_next_day"
    (by decide) (by decide) (by decide) (by decide)).1 (by decide)
  exact h.1

/-- C9 amended: whenever the target column is present, a non-positive
`test_days` fails with the dedicated validation error, whatever the
table's rows (the check precedes the date-column, ordering and sizing
checks). -/
theorem trainTestSplitTime_nonpositive_testDays (t : SplitTable) (k : Int)
    (tc : String) (hcol : t.cols.contains tc = true) (hk : k ≤ 0) :
    trainTestSplitTime t k tc = .error "test_days must be a positive integer." := by
  unfold trainTestSplitTime
  rw [hcol]
  rw [if_neg (by simp), if_pos hk]

/-- C9 witness: the non-positive `test_days` theorem at a concrete table
whose column list holds the target column. -/
theorem trainTestSplitTime_nonpositive_testDays_witness :
    trainTestSplitTime splitExample 0 "pnl_next_day" =
      .error "test_days must be a positive integer." :=
  trainTestSplitTime_nonpositive_testDays splitExample 0 "pnl_next_day"
    (by decide) (by decide)

/-- C9 counterexample: with `test_days = 0` on a table that lacks the
target column, the failure is the target-column error, not the
`test_days` validation error the claim promises for every table. -/
theorem trainTestSplitTime_target_checked_first :
    trainTestSplitTime ⟨["date"], []⟩ 0 "pnl_next_day" =
      .error "target_col \x27pnl_next_day\x27 is not present in feature frame." ∧
    ("target_col \x27pnl_next_day\x27 is not present in feature frame." ≠
      "test_days must be a positive integer.") := by
  constructor
  · rfl
  · decide

/-! ### The Cleaner: schema handling (C5) -/

/-- C5 amended: `clean` fails with the schema error naming the missing
required columns exactly when a required column is absent; extra columns
are dropped, not rejected. -/
theorem clean_missing_columns_error (t : RawTable)
    (h : missingColumns t.cols ≠ []) :
    clean t = .error ("Input data is missing required columns: " ++
      joinComma (missingColumns t.cols) ++ ".") := by
  unfold clean
  rw [if_pos h]

/-- C5 witness: a table carrying only a date column fails naming `rate`. -/
theorem clean_missing_columns_error_witness :
    clean ⟨["date"], []⟩ =
      .error "Input data is missing required columns: rate." :=
  clean_missing_columns_error ⟨["date"], []⟩ (by decide)

/-- C5 counterexample: a table whose column set strictly exceeds
\x7bdate, rate\x7d is accepted by `clean`, contradicting the claim that any
deviation from the exact column set fails. -/
theorem clean_accepts_extra_columns :
    clean ⟨["date", "rate", "extra"], [⟨some 0, some 1⟩]⟩ = .ok [(0, 1)] ∧
    (["date", "rate", "extra"] ≠ requiredInputColumns) := by
  constructor
  · rfl
  · decide

/-! ### Idempotence of `clean` (C6) -/

theorem keptRows_tableOfClean : ∀ (c : List Obs), keptRows (tableOfClean c) = c
  | [] => rfl
  | r :: rest => by
    show (r.1, r.2) :: keptRows (tableOfClean rest) = r :: rest
    rw [keptRows_tableOfClean rest]

/-- C6: `clean` is idempotent — feeding a successful `clean` result back
through `clean` succeeds and returns the very same table. -/
theorem clean_idempotent (x : RawTable) (c : List Obs) (h : clean x = .ok c) :
    clean (tableOfClean c) = .ok c := by
  obtain ⟨hne, hpos, hmono, hnodup, _⟩ := clean_ok_inv h
  have hcr : cleanedRows (tableOfClean c) = c := by
    unfold cleanedRows
    rw [keptRows_tableOfClean, sortByDate_of_monotone hmono,
      dropDupKeepLast_of_nodupDates hnodup]
  unfold clean
  rw [if_neg (fun hmiss => hmiss rfl), hcr, if_neg (by simp [hne]),
    if_neg (by simp [hpos]), if_neg (by simp [hmono]), if_neg (by simp [hnodup])]

/-- C6 witness: idempotence exercised on the concrete five-row example. -/
theorem clean_idempotent_witness :
    clean (tableOfClean [(0, 1), (1, 2), (2, 3), (3, 4), (4, 5)]) =
      .ok [(0, 1), (1, 2), (2, 3), (3, 4), (4, 5)] :=
  clean_idempotent rawExample [(0, 1), (1, 2), (2, 3), (3, 4), (4, 5)] (by rfl)

/-! ### Where the derived feature cells are defined -/

theorem retSimple_isSome (c : List Obs) (t : Nat) :
    ((retSimple c t).isSome = true) ↔ 1 ≤ t ∧ t < c.length := by
  unfold retSimple
  by_cases h0 : t = 0
  · subst h0
    simp
  · rw [if_neg h0]
    by_cases hlt : t < c.length
    · rw [List.get?_eq_get hlt, List.get?_eq_get (show t - 1 < c.length by omega)]
      simp only [Option.isSome_some, true_iff]
      omega
    · rw [List.get?_eq_none.mpr (by omega)]
      simp only [Option.isSome_none, Bool.false_eq_true, false_iff]
      omega

theorem retLog_isSome (logFn : Rat → Rat) (c : List Obs) (t : Nat) :
    ((retLog logFn c t).isSome = true) ↔ 1 ≤ t ∧ t < c.length := by
  unfold retLog
  by_cases h0 : t = 0
  · subst h0
    simp
  · rw [if_neg h0]
    by_cases hlt : t < c.length
    · rw [List.get?_eq_get hlt, List.get?_eq_get (show t - 1 < c.length by omega)]
      simp only [Option.isSome_some, true_iff]
      omega
    · rw [List.get?_eq_none.mpr (by omega)]
      simp only [Option.isSome_none, Bool.false_eq_true, false_iff]
      omega

theorem pnlAt_isSome (notional : Rat) (c : List Obs) (t : Nat) :
    ((pnlAt notional c t).isSome = true) ↔ 1 ≤ t ∧ t < c.length := by
  unfold pnlAt
  rw [show ((retSimple c t).map (fun r => notional * r)).isSome =
      (retSimple c t).isSome from by cases retSimple c t <;> rfl]
  exact retSimple_isSome c t

theorem shiftPos_isSome (s : Nat → Option Rat) (n lag t : Nat)
    (hs : ∀ u, ((s u).isSome = true) ↔ 1 ≤ u ∧ u < n) (ht : t < n) :
    ((shiftPos s lag t).isSome = true) ↔ lag + 1 ≤ t := by
  unfold shiftPos
  by_cases hle : lag ≤ t
  · rw [if_pos hle, hs]
    omega
  · rw [if_neg hle]
    simp only [Option.isSome_none, Bool.false_eq_true, false_iff]
    omega

theorem filter_range_le (k : Nat) : ∀ (m : Nat),
    (List.range m).filter (fun j => decide (k ≤ j)) = List.range' k (m - k)
  | 0 => by simp
  | m + 1 => by
    rw [List.range_succ, List.filter_append, filter_range_le k m]
    by_cases hk : k ≤ m
    · rw [List.filter_cons_of_pos (by simpa using hk), List.filter_nil]
      have hsucc : m + 1 - k = (m - k) + 1 := by omega
      rw [hsucc, List.range'_concat]
      have hm : k + 1 * (m - k) = m := by omega
      rw [hm]
    · rw [List.filter_cons_of_neg (by simpa using hk), List.filter_nil,
        List.append_nil]
      have hm : m - k = m + 1 - k := by omega
      rw [hm]

theorem filter_range_lt (b : Nat) : ∀ (m : Nat),
    (List.range m).filter (fun j => decide (j < b)) = List.range (min b m)
  | 0 => by simp
  | m + 1 => by
    rw [List.range_succ, List.filter_append, filter_range_lt b m]
    by_cases hb : m < b
    · rw [List.filter_cons_of_pos (by simpa using hb), List.filter_nil]
      have h1 : min b m = m := by omega
      have h2 : min b (m + 1) = m + 1 := by omega
      rw [h1, h2, List.range_succ]
    · rw [List.filter_cons_of_neg (by simpa using hb), List.filter_nil,
        List.append_nil]
      congr 1
      omega

theorem windowIdx_eq (lag t : Nat) :
    windowIdx lag t = List.range' (t + 1 - lag) (t + 1 - (t + 1 - lag)) := by
  unfold windowIdx
  rw [List.filter_congr (fun j _ =>
    show decide (t < j + lag) = decide (t + 1 - lag ≤ j) by
      rw [decide_eq_decide]
      omega)]
  rw [filter_range_le (t + 1 - lag) (t + 1)]

theorem length_filterMap_of_isSome {α β : Type} (f : α → Option β) :
    ∀ (l : List α), (∀ x ∈ l, (f x).isSome = true) →
      (l.filterMap f).length = l.length
  | [], _ => rfl
  | x :: xs, h => by
    rw [List.filterMap_cons]
    cases hfx : f x with
    | none =>
      exact absurd (h x (List.mem_cons_self x xs)) (by simp [hfx])
    | some b =>
      simp only [List.length_cons]
      rw [length_filterMap_of_isSome f xs
        (fun y hy => h y (List.mem_cons_of_mem x hy))]

theorem windowVals_retSimple_length (c : List Obs) (lag t : Nat)
    (ht : t < c.length) :
    (windowVals (retSimple c) lag t).length = min lag t := by
  unfold windowVals
  rw [windowIdx_eq]
  by_cases hlag : lag ≤ t
  · have h1 : t + 1 - (t + 1 - lag) = lag := by omega
    rw [h1]
    rw [length_filterMap_of_isSome]
    · rw [List.length_range']
      omega
    · intro j hj
      have hj2 := List.mem_range'_1.mp hj
      rw [retSimple_isSome]
      omega
  · have h2 : t + 1 - (t + 1 - lag) = t + 1 := by omega
    have h1 : t + 1 - lag = 0 := by omega
    rw [h2, h1, List.range'_succ, List.filterMap_cons]
    have h4 : retSimple c 0 = none := rfl
    rw [h4]
    rw [length_filterMap_of_isSome]
    · rw [List.length_range']
      omega
    · intro j hj
      have hj2 := List.mem_range'_1.mp hj
      rw [retSimple_isSome]
      omega

theorem rollMean_isSome (c : List Obs) (lag t : Nat) (ht : t < c.length) :
    ((rollMean (retSimple c) lag t).isSome = true) ↔ lag ≤ t := by
  unfold rollMean
  rw [windowVals_retSimple_length c lag t ht]
  by_cases h : lag ≤ min lag t
  · rw [if_pos h]
    simp only [Option.isSome_some, true_iff]
    omega
  · rw [if_neg h]
    simp only [Option.isSome_none, Bool.false_eq_true, false_iff]
    omega

theorem rollVol_isSome (sqrtFn : Rat → Rat) (c : List Obs) (lag t : Nat)
    (ht : t < c.length) :
    ((rollVol sqrtFn (retSimple c) lag t).isSome = true) ↔ lag ≤ t := by
  unfold rollVol
  rw [windowVals_retSimple_length c lag t ht]
  by_cases h : lag ≤ min lag t
  · rw [if_pos h]
    simp only [Option.isSome_some, true_iff]
    omega
  · rw [if_neg h]
    simp only [Option.isSome_none, Bool.false_eq_true, false_iff]
    omega

theorem lagCellsComplete_iff (logFn sqrtFn : Rat → Rat) (notional : Rat)
    (c : List Obs) (lag t : Nat) (ht : t < c.length) :
    (lagCellsComplete
      { lag := lag
        returnSimpleLag := shiftPos (retSimple c) lag t
        returnLogLag := shiftPos (retLog logFn c) lag t
        pnlLag := shiftPos (pnlAt notional c) lag t
        rollMeanCell := rollMean (retSimple c) lag t
        rollVolCell := rollVol sqrtFn (retSimple c) lag t } = true) ↔
      lag + 1 ≤ t := by
  unfold lagCellsComplete
  simp only [Bool.and_eq_true]
  rw [shiftPos_isSome _ c.length lag t (retSimple_isSome c) ht,
    shiftPos_isSome _ c.length lag t (retLog_isSome logFn c) ht,
    shiftPos_isSome _ c.length lag t (pnlAt_isSome notional c) ht,
    rollMean_isSome c lag t ht, rollVol_isSome sqrtFn c lag t ht]
  omega

theorem rowComplete_buildRow (logFn sqrtFn : Rat → Rat) (notional : Rat)
    (lags : List Nat) (c : List Obs) (t : Nat) (ht : t < c.length) :
    (rowComplete (buildRow logFn sqrtFn notional lags c t) = true) ↔
      (1 ≤ t ∧ t + 2 ≤ c.length ∧ ∀ l ∈ lags, l + 1 ≤ t) := by
  unfold rowComplete buildRow
  dsimp only
  simp only [Bool.and_eq_true, List.all_eq_true]
  rw [retSimple_isSome c t, retLog_isSome logFn c t, pnlAt_isSome notional c t,
    pnlAt_isSome notional c (t + 1)]
  constructor
  · intro h
    have h1 := h.1
    refine ⟨?_, ?_, fun l hl => (lagCellsComplete_iff logFn sqrtFn notional c
      l t ht).mp (h.2 _ (List.mem_map_of_mem _ hl))⟩
    · omega
    · omega
  · intro h
    obtain ⟨h1, h2, h3⟩ := h
    refine ⟨?_, fun x hx => ?_⟩
    · repeat' apply And.intro
      all_goals omega
    · obtain ⟨l, hl, rfl⟩ := List.mem_map.mp hx
      exact (lagCellsComplete_iff logFn sqrtFn notional c l t ht).mpr (h3 l hl)

/-! ### The surviving rows of the feature frame -/

theorem le_maxLag : ∀ (lags : List Nat), ∀ l ∈ lags, l ≤ maxLag lags
  | [], l, h => absurd h (List.not_mem_nil l)
  | x :: xs, l, h => by
    have hunfold : maxLag (x :: xs) = max x (maxLag xs) := rfl
    rw [hunfold]
    rcases List.mem_cons.mp h with h | h
    · subst h
      exact Nat.le_max_left _ _
    · exact le_trans (le_maxLag xs l h) (Nat.le_max_right _ _)

theorem maxLag_mem : ∀ (lags : List Nat), lags ≠ [] → (∀ l ∈ lags, 1 ≤ l) →
    maxLag lags ∈ lags
  | [], h, _ => absurd rfl h
  | x :: xs, _, hpos => by
    have hunfold : maxLag (x :: xs) = max x (maxLag xs) := rfl
    by_cases hxs : xs = []
    · subst hxs
      have : maxLag [x] = x := by
        show max x 0 = x
        omega
      rw [this]
      exact List.mem_cons_self x []
    · have hmem := maxLag_mem xs hxs (fun l hl => hpos l (List.mem_cons_of_mem x hl))
      rw [hunfold]
      rcases Nat.le_total x (maxLag xs) with hle | hle
      · rw [Nat.max_eq_right hle]
        exact List.mem_cons_of_mem x hmem
      · rw [Nat.max_eq_left hle]
        exact List.mem_cons_self x xs

theorem forall_lag_iff_maxLag (lags : List Nat) (t : Nat) (hne : lags ≠ [])
    (hpos : ∀ l ∈ lags, 1 ≤ l) :
    (∀ l ∈ lags, l + 1 ≤ t) ↔ maxLag lags + 1 ≤ t := by
  constructor
  · intro h
    exact h (maxLag lags) (maxLag_mem lags hne hpos)
  · intro h l hl
    have := le_maxLag lags l hl
    omega

/-- Over the cleaned series, the rows that survive `dropna` are exactly the
positions from `maxLag + 1` (first return plus deepest lag/rolling warm-up)
through `length - 2` (last position with a defined next-day target). -/
theorem featRows_eq (logFn sqrtFn : Rat → Rat) (notional : Rat)
    (lags : List Nat) (c : List Obs) (hne : lags ≠ [])
    (hpos : ∀ l ∈ lags, 1 ≤ l) :
    featRows logFn sqrtFn notional lags c =
      (List.range' (maxLag lags + 1) (c.length - 1 - (maxLag lags + 1))).map
        (buildRow logFn sqrtFn notional lags c) := by
  have hml : 1 ≤ maxLag lags := hpos _ (maxLag_mem lags hne hpos)
  unfold featRows
  rw [List.filter_map]
  congr 1
  have hcongr : ∀ j ∈ List.range c.length,
      (rowComplete ∘ buildRow logFn sqrtFn notional lags c) j =
        (decide (maxLag lags + 1 ≤ j) && decide (j < c.length - 1)) := by
    intro j hj
    have hjlt : j < c.length := List.mem_range.mp hj
    show rowComplete (buildRow logFn sqrtFn notional lags c j) = _
    rw [Bool.eq_iff_iff, Bool.and_eq_true, decide_eq_true_eq, decide_eq_true_eq,
      rowComplete_buildRow logFn sqrtFn notional lags c j hjlt,
      forall_lag_iff_maxLag lags j hne hpos]
    omega
  rw [List.filter_congr hcongr, ← List.filter_filter,
    filter_range_lt (c.length - 1) c.length]
  have hmin : min (c.length - 1) c.length = c.length - 1 := by omega
  rw [hmin, filter_range_le (maxLag lags + 1) (c.length - 1)]

/-! ### Normalized lags -/

theorem mem_insertNatSorted (x : Nat) : ∀ (l : List Nat) (y : Nat),
    (y ∈ insertNatSorted x l ↔ y = x ∨ y ∈ l)
  | [], y => by simp [insertNatSorted]
  | z :: zs, y => by
    rw [insertNatSorted]
    by_cases hle : x ≤ z
    · rw [if_pos hle]
      simp [List.mem_cons]
    · rw [if_neg hle]
      rw [List.mem_cons, mem_insertNatSorted x zs y, List.mem_cons]
      tauto

theorem mem_sortNats : ∀ (l : List Nat) (y : Nat), (y ∈ sortNats l ↔ y ∈ l)
  | [], y => Iff.rfl
  | x :: xs, y => by
    rw [sortNats, mem_insertNatSorted, mem_sortNats xs y, List.mem_cons]

theorem mem_dedupSorted : ∀ (l : List Nat) (y : Nat), (y ∈ dedupSorted l ↔ y ∈ l)
  | [], y => Iff.rfl
  | [x], y => Iff.rfl
  | x :: z :: zs, y => by
    rw [dedupSorted]
    by_cases hxz : x = z
    · rw [if_pos (by simpa using hxz), mem_dedupSorted (z :: zs) y]
      subst hxz
      simp only [List.mem_cons]
      tauto
    · rw [if_neg (by simpa using hxz), List.mem_cons,
        mem_dedupSorted (z :: zs) y]
      simp only [List.mem_cons]

theorem mem_normalizeLags (lags : List Int) (y : Nat) :
    y ∈ normalizeLags lags ↔ y ∈ lags.map Int.toNat := by
  unfold normalizeLags
  rw [mem_dedupSorted, mem_sortNats]

theorem normalizeLags_ne_nil (lags : List Int) (h : lags ≠ []) :
    normalizeLags lags ≠ [] := by
  cases lags with
  | nil => exact absurd rfl h
  | cons x xs =>
    intro hcontra
    have : x.toNat ∈ normalizeLags (x :: xs) :=
      (mem_normalizeLags (x :: xs) x.toNat).mpr (by simp)
    rw [hcontra] at this
    exact List.not_mem_nil _ this

theorem normalizeLags_pos (lags : List Int) (h : ∀ l ∈ lags, 0 < l) :
    ∀ m ∈ normalizeLags lags, 1 ≤ m := by
  intro m hm
  obtain ⟨l, hl, rfl⟩ := List.mem_map.mp ((mem_normalizeLags lags m).mp hm)
  have := h l hl
  omega

/-! ### Inversion of a successful `build_features` -/

theorem buildFeatures_ok_inv {logFn sqrtFn : Rat → Rat} {x : RawTable}
    {notional : Rat} {lags : List Int} {out : List FeatRow}
    (h : buildFeatures logFn sqrtFn x notional lags = .ok out) :
    lags ≠ [] ∧ (∀ l ∈ lags, 0 < l) ∧
      ∃ c, clean x = .ok c ∧
        out = featRows logFn sqrtFn notional (normalizeLags lags) c ∧
        out.isEmpty = false ∧
        intsMonotone (out.map FeatRow.date) = true ∧
        intsHasDup (out.map FeatRow.date) = false := by
  unfold buildFeatures at h
  split at h
  · cases h
  split at h
  · cases h
  split at h
  · cases h
  split at h
  · cases h
  rename_i hcols hnot hlagne hlagpos
  split at h
  · cases h
  rename_i c hc
  split at h
  · cases h
  split at h
  · cases h
  split at h
  · cases h
  split at h
  · cases h
  rename_i hempty hnan hmono hdup
  cases h
  refine ⟨by simpa using hlagne, ?_, c, hc, rfl, by simpa using hempty, ?_,
    by simpa using hdup⟩
  · intro l hl
    have h2 : lags.any (fun lag => decide (lag ≤ 0)) = false := by
      simpa using hlagpos
    have h3 := List.any_eq_false.mp h2 l hl
    simp at h3
    omega
  · simpa using hmono

theorem nodup_of_intsHasDup_false : ∀ {ds : List Int},
    intsHasDup ds = false → ds.Nodup
  | [], _ => List.nodup_nil
  | x :: xs, h => by
    rw [intsHasDup, Bool.or_eq_false_iff] at h
    refine List.nodup_cons.mpr ⟨?_, nodup_of_intsHasDup_false h.2⟩
    intro hx
    have := List.any_eq_false.mp h.1 x hx
    simp at this

/-- C10: when `build_features` succeeds on a table whose cleaned series has
`N` rows, and the largest configured lag is `L`, the output has exactly
`N - L - 2` rows (`L + 1` warm-up rows and the final target-less row are
dropped). -/
theorem buildFeatures_row_count (logFn sqrtFn : Rat → Rat) (x : RawTable)
    (notional : Rat) (lags : List Int) (out : List FeatRow) (c : List Obs)
    (hok : buildFeatures logFn sqrtFn x notional lags = .ok out)
    (hc : clean x = .ok c) :
    out.length = c.length - (maxLag (normalizeLags lags) + 2) := by
  obtain ⟨hne, hpos, c2, hc2, hout, -, -, -⟩ := buildFeatures_ok_inv hok
  rw [hc] at hc2
  injection hc2 with hcc
  subst hcc
  rw [hout, featRows_eq logFn sqrtFn notional (normalizeLags lags) c
    (normalizeLags_ne_nil lags hne) (normalizeLags_pos lags hpos),
    List.length_map, List.length_range']
  omega

/-- C10 witness: five cleaned rows with single lag 1 give 5 - 1 - 2 = 2
feature rows. -/
theorem buildFeatures_row_count_witness : featsExample.length = 2 := by
  have h := buildFeatures_row_count id id rawExample 100 [1] featsExample
    [(0, 1), (1, 2), (2, 3), (3, 4), (4, 5)] (by rfl) (by rfl)
  exact h.trans (by rfl)

/-- C1: on any accepted input, every emitted feature row is fully
populated, and the row sitting at position `i` of the cleaned series
carries `pnl_next_day = notional * (rate[i+1]/rate[i] - 1)` — exactly, and
therefore within the floating tolerance 1e-12. -/
theorem buildFeatures_no_missing_and_target (logFn sqrtFn : Rat → Rat)
    (x : RawTable) (notional : Rat) (lags : List Int) (out : List FeatRow)
    (c : List Obs)
    (hok : buildFeatures logFn sqrtFn x notional lags = .ok out)
    (hc : clean x = .ok c) :
    ∀ row ∈ out, rowComplete row = true ∧
      ∀ (i : Nat) (di dn : Int) (ri rn : Rat),
        c.get? i = some (di, ri) → c.get? (i + 1) = some (dn, rn) →
        row.date = di →
        row.pnlNextDay = some (notional * (rn / ri - 1)) ∧
        ∀ v, row.pnlNextDay = some v →
          |v - notional * (rn / ri - 1)| ≤ 1 / 1000000000000 := by
  obtain ⟨hne, hpos, c2, hc2, hout, -, -, -⟩ := buildFeatures_ok_inv hok
  rw [hc] at hc2
  injection hc2 with hcc
  subst hcc
  have hnodup : (c.map Prod.fst).Nodup :=
    nodup_of_intsHasDup_false (clean_ok_inv hc).2.2.2.1
  intro row hrow
  rw [hout] at hrow
  unfold featRows at hrow
  have hmemf := List.mem_filter.mp hrow
  refine ⟨hmemf.2, ?_⟩
  obtain ⟨t, htmem, hbt⟩ := List.mem_map.mp hmemf.1
  have htn : t < c.length := List.mem_range.mp htmem
  intro i di dn ri rn hgi hgi1 hdate
  obtain ⟨ct, hct⟩ : ∃ ct, c.get? t = some ct :=
    ⟨c.get ⟨t, htn⟩, List.get?_eq_get htn⟩
  have hrowdate : row.date = ct.1 := by
    rw [← hbt]
    unfold buildRow
    dsimp only
    rw [hct]
    rfl
  have hin : i < c.length := by
    rcases List.get?_eq_some.mp hgi with ⟨hlt, -⟩
    exact hlt
  have hit : i = t := by
    have hgj : (c.map Prod.fst).get? i = (c.map Prod.fst).get? t := by
      rw [List.get?_map, List.get?_map, hgi, hct]
      rw [hdate] at hrowdate
      simp [hrowdate]
    exact List.get?_inj (by simpa using hin) (by simpa using hnodup) hgj
  subst hit
  have hval : retSimple c (i + 1) = some (rn / ri - 1) := by
    unfold retSimple
    rw [if_neg (by omega)]
    have hsub : i + 1 - 1 = i := by omega
    rw [hsub, hgi1, hgi]
  have hpnl : row.pnlNextDay = pnlAt notional c (i + 1) := by
    rw [← hbt]
    rfl
  have hshow : pnlAt notional c (i + 1) = some (notional * (rn / ri - 1)) := by
    unfold pnlAt
    rw [hval]
    rfl
  rw [hpnl, hshow]
  refine ⟨rfl, ?_⟩
  intro v hv
  injection hv with hv2
  rw [← hv2]
  rw [sub_self, abs_zero]
  norm_num

/-- C1 witness: on the concrete five-row example every returned feature
row is fully populated. -/
theorem buildFeatures_no_missing_and_target_witness :
    featsExample.all rowComplete = true := by
  rw [List.all_eq_true]
  intro row hrow
  exact ((buildFeatures_no_missing_and_target id id rawExample 100 [1]
    featsExample [(0, 1), (1, 2), (2, 3), (3, 4), (4, 5)] (by rfl) (by rfl))
    row hrow).1

/-! ### The end-to-end scenario (C7) -/

theorem c700_length (rate : Nat → Rat) : (c700 rate).length = 700 := by
  unfold c700
  rw [List.length_map, List.length_range]

theorem c700_get (rate : Nat → Rat) (t : Nat) (ht : t < 700) :
    (c700 rate).get? t = some ((19723 + (t : Int), rate t)) := by
  unfold c700
  rw [List.get?_eq_getElem?, List.getElem?_map, List.getElem?_range ht]
  rfl

theorem pairwise_lt_rangeAux : ∀ (n s : Nat), (List.range' s n).Pairwise (· < ·)
  | 0, _ => List.Pairwise.nil
  | n + 1, s => by
    rw [List.range'_succ]
    refine List.pairwise_cons.mpr ⟨?_, pairwise_lt_rangeAux n (s + 1)⟩
    intro b hb
    have := List.mem_range'_1.mp hb
    omega

theorem c700_dates_pairwise (rate : Nat → Rat) :
    ((c700 rate).map Prod.fst).Pairwise (· < ·) := by
  unfold c700
  rw [List.map_map]
  have hbase : (List.range 700).Pairwise (· < ·) := by
    rw [List.range_eq_range']
    exact pairwise_lt_rangeAux 700 0
  exact List.Pairwise.map _ (fun a b hab => by
    show (19723 + (a : Int)) < 19723 + (b : Int)
    omega) hbase

theorem filterMap_total {α β : Type} (f : α → Option β) (g : α → β)
    (h : ∀ a, f a = some (g a)) : ∀ (l : List α), l.filterMap f = l.map g
  | [] => rfl
  | a :: as => by
    rw [List.filterMap_cons, h a, List.map_cons, filterMap_total f g h as]

theorem keptRows_raw700 (rate : Nat → Rat) : keptRows (raw700 rate) = c700 rate := by
  unfold keptRows raw700 c700
  rw [List.filterMap_map]
  exact filterMap_total _ _ (fun i => rfl) _

theorem clean_raw700 (rate : Nat → Rat) (hr : ∀ i, i < 700 → 0 < rate i) :
    clean (raw700 rate) = .ok (c700 rate) := by
  have hpair := c700_dates_pairwise rate
  have hmono := intsMonotone_of_pairwise hpair
  have hdup := intsHasDup_of_pairwise hpair
  have hcr : cleanedRows (raw700 rate) = c700 rate := by
    unfold cleanedRows
    rw [keptRows_raw700, sortByDate_of_monotone hmono,
      dropDupKeepLast_of_nodupDates hdup]
  have hlen := c700_length rate
  have hie : (c700 rate).isEmpty = false := by
    cases hcc : c700 rate with
    | nil => rw [hcc] at hlen; simp at hlen
    | cons a as => rfl
  have hposany : (c700 rate).any (fun r => decide (r.2 ≤ 0)) = false := by
    rw [List.any_eq_false]
    intro p hp
    unfold c700 at hp
    obtain ⟨i, hi, rfl⟩ := List.mem_map.mp hp
    simp only [decide_eq_true_eq]
    exact not_le.mpr (hr i (List.mem_range.mp hi))
  unfold clean
  rw [if_neg (fun hmiss => hmiss rfl), hcr, if_neg (by simp [hie]),
    if_neg (by simp [hposany]), if_neg (by simp [hmono]),
    if_neg (by simp [hdup])]

theorem feats700_eq (logFn sqrtFn : Rat → Rat) (rate : Nat → Rat) :
    featRows logFn sqrtFn 10000 [1, 5, 10, 20, 60] (c700 rate) =
      (List.range' 61 638).map
        (buildRow logFn sqrtFn 10000 [1, 5, 10, 20, 60] (c700 rate)) := by
  rw [featRows_eq logFn sqrtFn 10000 [1, 5, 10, 20, 60] (c700 rate)
    (by decide) (by decide), c700_length]
  rfl

theorem feats700_length (logFn sqrtFn : Rat → Rat) (rate : Nat → Rat) :
    (featRows logFn sqrtFn 10000 [1, 5, 10, 20, 60] (c700 rate)).length = 638 := by
  rw [feats700_eq, List.length_map, List.length_range']

theorem feats700_complete (logFn sqrtFn : Rat → Rat) (rate : Nat → Rat) :
    ∀ row ∈ featRows logFn sqrtFn 10000 [1, 5, 10, 20, 60] (c700 rate),
      rowComplete row = true := by
  intro row hrow
  rw [feats700_eq] at hrow
  obtain ⟨t, ht, rfl⟩ := List.mem_map.mp hrow
  have htb := List.mem_range'_1.mp ht
  have htn : t < (c700 rate).length := by rw [c700_length]; omega
  rw [rowComplete_buildRow logFn sqrtFn 10000 [1, 5, 10, 20, 60] (c700 rate) t htn]
  refine ⟨by omega, by rw [c700_length]; omega, ?_⟩
  intro l hl
  simp only [List.mem_cons, List.not_mem_nil, or_false] at hl
  rcases hl with rfl | rfl | rfl | rfl | rfl <;> omega

theorem feats700_dates (logFn sqrtFn : Rat → Rat) (rate : Nat → Rat) :
    (featRows logFn sqrtFn 10000 [1, 5, 10, 20, 60] (c700 rate)).map
      FeatRow.date =
      (List.range' 61 638).map (fun t : Nat => (19723 + (t : Int))) := by
  rw [feats700_eq, List.map_map]
  apply List.map_congr_left
  intro t ht
  have htb := List.mem_range'_1.mp ht
  show (buildRow logFn sqrtFn 10000 [1, 5, 10, 20, 60] (c700 rate) t).date = _
  unfold buildRow
  dsimp only
  rw [c700_get rate t (by omega)]
  rfl

theorem feats700_dates_pairwise (logFn sqrtFn : Rat → Rat) (rate : Nat → Rat) :
    ((featRows logFn sqrtFn 10000 [1, 5, 10, 20, 60] (c700 rate)).map
      FeatRow.date).Pairwise (· < ·) := by
  rw [feats700_dates]
  refine List.Pairwise.map _ (fun a b hab => ?_) (pairwise_lt_rangeAux 638 61)
  show (19723 + (a : Int)) < 19723 + (b : Int)
  omega

theorem buildFeatures_raw700 (logFn sqrtFn : Rat → Rat) (rate : Nat → Rat)
    (hr : ∀ i, i < 700 → 0 < rate i) :
    buildFeatures logFn sqrtFn (raw700 rate) 10000 scenarioLags =
      .ok (featRows logFn sqrtFn 10000 [1, 5, 10, 20, 60] (c700 rate)) := by
  have hnorm : normalizeLags scenarioLags = [1, 5, 10, 20, 60] := rfl
  have hFlen := feats700_length logFn sqrtFn rate
  have hFie : (featRows logFn sqrtFn 10000 [1, 5, 10, 20, 60]
      (c700 rate)).isEmpty = false := by
    cases hFc : featRows logFn sqrtFn 10000 [1, 5, 10, 20, 60] (c700 rate) with
    | nil => rw [hFc] at hFlen; simp at hFlen
    | cons a as => rfl
  have hFnan : (featRows logFn sqrtFn 10000 [1, 5, 10, 20, 60]
      (c700 rate)).any (fun r => !rowComplete r) = false := by
    rw [List.any_eq_false]
    intro r hrF
    simp [feats700_complete logFn sqrtFn rate r hrF]
  have hdpair := feats700_dates_pairwise logFn sqrtFn rate
  have hFmono := intsMonotone_of_pairwise hdpair
  have hFdup := intsHasDup_of_pairwise hdpair
  unfold buildFeatures
  rw [if_neg (fun hcols => hcols rfl), if_neg (by norm_num), if_neg (by decide),
    if_neg (by decide), clean_raw700 rate hr]
  dsimp only
  rw [hnorm]
  rw [if_neg (by simp [hFie]), if_neg (by simp [hFnan]),
    if_neg (by simp [hFmono]), if_neg (by simp [hFdup])]

theorem scenario700_split (logFn sqrtFn : Rat → Rat) (rate : Nat → Rat) :
    ∃ xtr xte ytr yte,
      trainTestSplitTime (splitTableOfFeats [1, 5, 10, 20, 60]
          (featRows logFn sqrtFn 10000 [1, 5, 10, 20, 60] (c700 rate))) 250
          targetColumn = .ok (xtr, xte, ytr, yte) ∧
        xtr.length = 388 ∧ xte.length = 250 ∧
        (∀ d1 ∈ xtr.map SplitRow.date, ∀ d2 ∈ xte.map SplitRow.date, d1 < d2) := by
  set T := splitTableOfFeats [1, 5, 10, 20, 60]
    (featRows logFn sqrtFn 10000 [1, 5, 10, 20, 60] (c700 rate)) with hT
  have hrows : T.rows.map SplitRow.date =
      (featRows logFn sqrtFn 10000 [1, 5, 10, 20, 60] (c700 rate)).map
        FeatRow.date := by
    rw [hT]
    unfold splitTableOfFeats
    rw [List.map_map]
    rfl
  have hsorted : (T.rows.map SplitRow.date).Pairwise (· < ·) := by
    rw [hrows]
    exact feats700_dates_pairwise logFn sqrtFn rate
  have hlen : T.rows.length = 638 := by
    rw [hT]
    unfold splitTableOfFeats
    rw [List.length_map, feats700_length]
  have hcol : T.cols.contains targetColumn = true := by
    show (featColumns [1, 5, 10, 20, 60]).contains targetColumn = true
    decide
  have hdate : T.cols.contains "date" = true := by
    show (featColumns [1, 5, 10, 20, 60]).contains "date" = true
    decide
  have hok := trainTestSplitTime_ok T 250 targetColumn hcol hdate hsorted
    (by norm_num) (by rw [hlen]; norm_num)
  have hidx : T.rows.length - (250 : Int).toNat = 388 := by
    rw [hlen]
    rfl
  rw [hidx] at hok
  refine ⟨T.rows.take 388, T.rows.drop 388, (T.rows.take 388).map SplitRow.target,
    (T.rows.drop 388).map SplitRow.target, hok, ?_, ?_, ?_⟩
  · rw [List.length_take]
    omega
  · rw [List.length_drop]
    omega
  · exact take_drop_dates_lt T.rows 388 hsorted

/-- C7 amended: for every 700-row daily series starting 2024-01-01 with
positive rates, lag set 1/5/10/20/60, notional 10000 and test window 250,
`build_features` yields 638 fully-populated rows (700 minus the 61 warm-up
rows and the final target-less row), and the chronological split yields
388 train rows and 250 test rows with every train date before every test
date. -/
theorem scenario700_spec (logFn sqrtFn : Rat → Rat) (rate : Nat → Rat)
    (hr : ∀ i, i < 700 → 0 < rate i) :
    ∃ feats xtr xte ytr yte,
      buildFeatures logFn sqrtFn (raw700 rate) 10000 scenarioLags = .ok feats ∧
      feats.length = 638 ∧
      (∀ row ∈ feats, rowComplete row = true) ∧
      trainTestSplitTime (splitTableOfFeats [1, 5, 10, 20, 60] feats) 250
        targetColumn = .ok (xtr, xte, ytr, yte) ∧
      xtr.length = 388 ∧ xte.length = 250 ∧
      (∀ d1 ∈ xtr.map SplitRow.date, ∀ d2 ∈ xte.map SplitRow.date, d1 < d2) := by
  obtain ⟨xtr, xte, ytr, yte, hsplit, h1, h2, h3⟩ :=
    scenario700_split logFn sqrtFn rate
  exact ⟨featRows logFn sqrtFn 10000 [1, 5, 10, 20, 60] (c700 rate), xtr, xte,
    ytr, yte, buildFeatures_raw700 logFn sqrtFn rate hr,
    feats700_length logFn sqrtFn rate, feats700_complete logFn sqrtFn rate,
    hsplit, h1, h2, h3⟩

/-- C7 witness: the amended scenario theorem at the constant-rate series. -/
theorem scenario700_spec_witness :
    ∃ feats xtr xte ytr yte,
      buildFeatures (fun _ => 0) (fun _ => 0) (raw700 (fun _ => 1)) 10000
        scenarioLags = .ok feats ∧
      feats.length = 638 ∧
      (∀ row ∈ feats, rowComplete row = true) ∧
      trainTestSplitTime (splitTableOfFeats [1, 5, 10, 20, 60] feats) 250
        targetColumn = .ok (xtr, xte, ytr, yte) ∧
      xtr.length = 388 ∧ xte.length = 250 ∧
      (∀ d1 ∈ xtr.map SplitRow.date, ∀ d2 ∈ xte.map SplitRow.date, d1 < d2) :=
  scenario700_spec (fun _ => 0) (fun _ => 0) (fun _ => 1)
    (fun _ _ => by norm_num)

/-- C7 counterexample: at the concrete constant-rate instantiation of the
spec scenario the train part of the split carries 388 rows, not 450. -/
theorem scenario700_train_is_388_not_450 :
    (trainTestSplitTime (splitTableOfFeats [1, 5, 10, 20, 60] feats700) 250
      targetColumn).map (fun q => q.1.length) = .ok 388 ∧ (388 : Nat) ≠ 450 := by
  have hb := buildFeatures_raw700 (fun _ => 0) (fun _ => 0) (fun _ => 1)
    (fun _ _ => by norm_num)
  have hfeats : feats700 =
      featRows (fun _ => 0) (fun _ => 0) 10000 [1, 5, 10, 20, 60]
        (c700 (fun _ => 1)) := by
    unfold feats700
    rw [hb]
    simp [Except.toOption]
  obtain ⟨xtr, xte, ytr, yte, hsplit, h1, -, -⟩ :=
    scenario700_split (fun _ => 0) (fun _ => 0) (fun _ => 1)
  constructor
  · rw [hfeats, hsplit]
    show Except.ok xtr.length = Except.ok 388
    rw [h1]
  · decide

/-! ### The Range Partitioner (C3) -/

theorem dateLE_iff (a b : CalDate) : dateLE a b = true ↔
    (a.year < b.year ∨ (a.year = b.year ∧
      (a.month < b.month ∨ (a.month = b.month ∧ a.day ≤ b.day)))) := by
  unfold dateLE
  simp [Bool.or_eq_true, Bool.and_eq_true, decide_eq_true_eq]

theorem dateLT_iff (a b : CalDate) : dateLT a b = true ↔
    (a.year < b.year ∨ (a.year = b.year ∧
      (a.month < b.month ∨ (a.month = b.month ∧ a.day < b.day)))) := by
  unfold dateLT
  simp [Bool.or_eq_true, Bool.and_eq_true, decide_eq_true_eq]

theorem daysInMonth_pos (y : Int) (m : Nat) : 1 ≤ daysInMonth y m := by
  unfold daysInMonth
  split
  · split <;> omega
  · split <;> omega

theorem daysInMonth_le_31 (y : Int) (m : Nat) : daysInMonth y m ≤ 31 := by
  unfold daysInMonth
  split
  · split <;> omega
  · split <;> omega

theorem nextDay_valid {d : CalDate} (h : validDate d) : validDate (nextDay d) := by
  obtain ⟨h1, h2, h3, h4⟩ := h
  have hp := daysInMonth_pos (d.year + 1) 1
  have hp2 := daysInMonth_pos d.year (d.month + 1)
  unfold nextDay validDate
  split
  · dsimp only
    omega
  · split
    · dsimp only
      omega
    · dsimp only
      omega

theorem dateLT_nextDay {d : CalDate} (h : validDate d) :
    dateLT d (nextDay d) = true := by
  obtain ⟨h1, h2, h3, h4⟩ := h
  unfold nextDay
  split
  · rw [dateLT_iff]
    dsimp only
    omega
  · split
    · rw [dateLT_iff]
      dsimp only
      omega
    · rw [dateLT_iff]
      dsimp only
      omega

theorem dateLE_false_of_lt {a b : CalDate} (h : dateLT a b = true) :
    dateLE b a = false := by
  rw [dateLT_iff] at h
  cases hv : dateLE b a
  · rfl
  · rw [dateLE_iff] at hv
    omega

theorem and4_true {a b c d : Bool} (ha : a = true) (hb : b = true)
    (hc : c = true) (hd : d = true) : (a && b && c && d) = true := by
  rw [ha, hb, hc, hd]
  rfl

theorem isChunking_cons (s e a b : CalDate) (rest : List (CalDate × CalDate)) :
    isChunking s e ((a, b) :: rest) =
      (a == s && dateLE a b && (a.year == b.year) &&
        (if rest.isEmpty then b == e else isChunking (nextDay b) e rest)) := by
  cases rest with
  | nil => rfl
  | cons c cs => rfl

/-- The loop invariant of `_iter_yearly_ranges`: with enough fuel, starting
from any valid cursor at or before the end date, the emitted chunks satisfy
the Range Partitioner contract from the cursor to the end. -/
theorem iterAux_chunking (e : CalDate) (he : validDate e) :
    ∀ (fuel : Nat) (cursor : CalDate), validDate cursor →
      dateLE cursor e = true →
      (e.year - cursor.year).toNat + 1 ≤ fuel →
      isChunking cursor e (iterYearlyRangesAux e fuel cursor) = true := by
  obtain ⟨ey, em, ed⟩ := e
  obtain ⟨hem1, hem2, hed1, hed2⟩ := he
  dsimp only at hem1 hem2 hed1 hed2
  intro fuel
  induction fuel with
  | zero =>
    intro cursor _ _ hf
    omega
  | succ fuel ih =>
    intro cursor hv hle hf
    obtain ⟨cy, cm, cd⟩ := cursor
    obtain ⟨hcm1, hcm2, hcd1, hcd2⟩ := hv
    dsimp only at hcm1 hcm2 hcd1 hcd2 hf
    have hled := (dateLE_iff ⟨cy, cm, cd⟩ ⟨ey, em, ed⟩).mp hle
    dsimp only at hled
    have hdim31 := daysInMonth_le_31 cy cm
    rw [iterYearlyRangesAux, if_pos hle]
    by_cases hmin : dateLE (yearEnd cy) ⟨ey, em, ed⟩ = true
    · have hminEq : minDate (yearEnd cy) ⟨ey, em, ed⟩ = yearEnd cy := by
        unfold minDate
        rw [if_pos hmin]
      have hnext : nextDay (yearEnd cy) = ⟨cy + 1, 1, 1⟩ := rfl
      have hminP := (dateLE_iff (yearEnd cy) ⟨ey, em, ed⟩).mp hmin
      dsimp only [yearEnd] at hminP
      rw [hminEq, hnext]
      by_cases hsame : cy = ey
      · have hd12 : daysInMonth ey 12 = 31 := rfl
        have hem : em = 12 := by omega
        have hed : ed = 31 := by
          subst hem hsame
          omega
        subst hem
        subst hed
        subst hsame
        have hrest : iterYearlyRangesAux ⟨cy, 12, 31⟩ fuel ⟨cy + 1, 1, 1⟩ = [] := by
          cases fuel with
          | zero => rfl
          | succ f =>
            rw [iterYearlyRangesAux, if_neg]
            intro hcon
            rw [dateLE_iff] at hcon
            dsimp only at hcon
            omega
        rw [hrest, isChunking_cons]
        apply and4_true
        · exact beq_self_eq_true _
        · rw [dateLE_iff]
          show cy < cy ∨ (cy = cy ∧ (cm < 12 ∨ (cm = 12 ∧ cd ≤ 31)))
          omega
        · exact beq_self_eq_true cy
        · exact beq_self_eq_true (yearEnd cy)
      · have hcylt : cy < ey := by omega
        have hvalid1 : validDate ⟨cy + 1, 1, 1⟩ := by
          show 1 ≤ 1 ∧ 1 ≤ 12 ∧ 1 ≤ 1 ∧ 1 ≤ daysInMonth (cy + 1) 1
          have := daysInMonth_pos (cy + 1) 1
          omega
        have hle1 : dateLE ⟨cy + 1, 1, 1⟩ ⟨ey, em, ed⟩ = true := by
          rw [dateLE_iff]
          show cy + 1 < ey ∨ (cy + 1 = ey ∧ (1 < em ∨ (1 = em ∧ 1 ≤ ed)))
          omega
        have hf1 : ((ey : Int) - (cy + 1)).toNat + 1 ≤ fuel := by omega
        have hrest := ih ⟨cy + 1, 1, 1⟩ hvalid1 hle1 hf1
        have hrne : (iterYearlyRangesAux ⟨ey, em, ed⟩ fuel ⟨cy + 1, 1, 1⟩).isEmpty
            = false := by
          cases hcc : iterYearlyRangesAux ⟨ey, em, ed⟩ fuel ⟨cy + 1, 1, 1⟩ with
          | nil => rw [hcc, isChunking] at hrest; cases hrest
          | cons a as => rfl
        rw [isChunking_cons, hnext, hrne]
        apply and4_true
        · exact beq_self_eq_true _
        · rw [dateLE_iff]
          show cy < cy ∨ (cy = cy ∧ (cm < 12 ∨ (cm = 12 ∧ cd ≤ 31)))
          omega
        · exact beq_self_eq_true cy
        · exact hrest
    · have hminEq : minDate (yearEnd cy) ⟨ey, em, ed⟩ = ⟨ey, em, ed⟩ := by
        unfold minDate
        rw [if_neg (by simp [hmin])]
      have hsame : cy = ey := by
        have hminP : ¬ (dateLE (yearEnd cy) ⟨ey, em, ed⟩ = true) := by
          simp [hmin]
        rw [dateLE_iff] at hminP
        have hm2 : ¬ (cy < ey ∨ (cy = ey ∧ (12 < em ∨ (12 = em ∧ 31 ≤ ed)))) :=
          hminP
        omega
      have hnlt := @dateLT_nextDay ⟨ey, em, ed⟩ ⟨hem1, hem2, hed1, hed2⟩
      have hnle := dateLE_false_of_lt hnlt
      have hrest : iterYearlyRangesAux ⟨ey, em, ed⟩ fuel
          (nextDay ⟨ey, em, ed⟩) = [] := by
        cases fuel with
        | zero => rfl
        | succ f =>
          rw [iterYearlyRangesAux, if_neg (by simp [hnle])]
      rw [hminEq, hrest, isChunking_cons]
      apply and4_true
      · exact beq_self_eq_true _
      · exact hle
      · show (cy == ey) = true
        rw [hsame]
        exact beq_self_eq_true ey
      · exact beq_self_eq_true _

/-- C3: for every pair of valid calendar dates with `start ≤ end`, the
Range Partitioner's chunk list satisfies the chunking contract: it is
non-empty, its first chunk starts at `start`, every chunk is well-ordered
(`chunk_start ≤ chunk_end`) and confined to one calendar year, every later
chunk starts exactly the day after its predecessor ends (contiguous and
non-overlapping, since `nextDay` strictly advances), and the last chunk
ends at `end` — so the chunks cover exactly `[start, end]`. -/
theorem iterYearlyRanges_chunking (s e : CalDate) (hs : validDate s)
    (he : validDate e) (hse : dateLE s e = true) :
    isChunking s e (iterYearlyRanges s e) = true := by
  unfold iterYearlyRanges
  apply iterAux_chunking e he _ s hs hse
  have hy : s.year ≤ e.year := by
    have := (dateLE_iff s e).mp hse
    omega
  omega

/-- C3 witness: the spec's own chunking scenario, 2025-12-31 .. 2026-01-02,
split at the year boundary. -/
theorem iterYearlyRanges_chunking_witness :
    isChunking ⟨2025, 12, 31⟩ ⟨2026, 1, 2⟩
      (iterYearlyRanges ⟨2025, 12, 31⟩ ⟨2026, 1, 2⟩) = true :=
  iterYearlyRanges_chunking ⟨2025, 12, 31⟩ ⟨2026, 1, 2⟩ (by decide) (by decide)
    (by decide)

/-! ### Fault handling in the Response Decoder (C8) -/

theorem selfAndDesc_elem (t : String) (x : Option String) (ch : List Xml) :
    Xml.selfAndDesc (.elem t x ch) = .elem t x ch :: ch.flatMap Xml.selfAndDesc := by
  rw [Xml.selfAndDesc]
  congr 1
  rw [List.flatMap_def, List.flatMap_def, List.attach_map_val]

/-- C8 amended: whenever an envelope-namespaced `Fault` element occurs
among the proper descendants of the parsed payload's root (as in any real
SOAP response, where the fault sits under Envelope/Body), decoding fails —
returning no rows — with a message carrying the endpoint, both requested
date bounds, and the fault's own message text whenever a `faultstring`
child holds a non-empty text. -/
theorem extractRows_fault (parseDate : String → Option CalDate)
    (parseRate : String → Option Rat) (root : Xml) (s e : CalDate) (f : Xml)
    (hf : (descOf root).find? (fun n => n.tag == nsTag soapEnvelopeNs "Fault") =
      some f) :
    ∃ msg, extractRows parseDate parseRate root s e = .error msg ∧
      strIncludes msg banguatEndpoint ∧
      strIncludes msg (toIso s) ∧ strIncludes msg (toIso e) ∧
      ∀ txt, childText f "faultstring" = some txt → txt ≠ "" →
        strIncludes msg txt := by
  unfold extractRows
  rw [hf]
  refine ⟨_, rfl, ?_, ?_, ?_, ?_⟩
  · exact ⟨("Banguat SOAP fault from endpoint ").data,
      (" for range " ++ toIso s ++ " to " ++ toIso e ++ ": " ++
        (match childText f "faultstring" with
          | some m => if m == "" then "Unknown SOAP fault." else m
          | none => "Unknown SOAP fault.")).data,
      by simp [List.append_assoc]⟩
  · exact ⟨("Banguat SOAP fault from endpoint " ++ banguatEndpoint ++
        " for range ").data,
      (" to " ++ toIso e ++ ": " ++
        (match childText f "faultstring" with
          | some m => if m == "" then "Unknown SOAP fault." else m
          | none => "Unknown SOAP fault.")).data,
      by simp [List.append_assoc]⟩
  · exact ⟨("Banguat SOAP fault from endpoint " ++ banguatEndpoint ++
        " for range " ++ toIso s ++ " to ").data,
      (": " ++
        (match childText f "faultstring" with
          | some m => if m == "" then "Unknown SOAP fault." else m
          | none => "Unknown SOAP fault.")).data,
      by simp [List.append_assoc]⟩
  · intro txt htxt hne
    rw [htxt]
    show strIncludes ("Banguat SOAP fault from endpoint " ++ banguatEndpoint ++
      " for range " ++ toIso s ++ " to " ++ toIso e ++ ": " ++
      (if txt == "" then "Unknown SOAP fault." else txt)) txt
    rw [if_neg (by simp [hne])]
    exact ⟨("Banguat SOAP fault from endpoint " ++ banguatEndpoint ++
        " for range " ++ toIso s ++ " to " ++ toIso e ++ ": ").data, [],
      by simp [List.append_assoc]⟩

/-- C8 witness: the fault theorem on the realistically nested payload
Envelope/Body/Fault with faultstring
"Server was unable to process request.". -/
theorem extractRows_fault_witness :
    ∃ msg, extractRows (fun _ => none) (fun _ => none) faultNestedPayload
        ⟨2026, 1, 1⟩ ⟨2026, 1, 10⟩ = .error msg ∧
      strIncludes msg banguatEndpoint ∧
      strIncludes msg "Server was unable to process request." := by
  have hdesc : descOf faultNestedPayload =
      [.elem (nsTag soapEnvelopeNs "Body") none
          [.elem (nsTag soapEnvelopeNs "Fault") none
            [.elem "faultstring" (some "Server was unable to process request.") []]],
        .elem (nsTag soapEnvelopeNs "Fault") none
          [.elem "faultstring" (some "Server was unable to process request.") []],
        .elem "faultstring" (some "Server was unable to process request.") []] := by
    unfold faultNestedPayload descOf
    simp only [Xml.children, selfAndDesc_elem, List.flatMap_cons,
      List.flatMap_nil, List.append_nil, List.cons_append, List.nil_append]
  have hfind : (descOf faultNestedPayload).find?
      (fun n => n.tag == nsTag soapEnvelopeNs "Fault") =
      some (.elem (nsTag soapEnvelopeNs "Fault") none
        [.elem "faultstring" (some "Server was unable to process request.") []]) := by
    rw [hdesc]
    rfl
  obtain ⟨msg, herr, h1, -, -, h4⟩ := extractRows_fault (fun _ => none)
    (fun _ => none) faultNestedPayload ⟨2026, 1, 1⟩ ⟨2026, 1, 10⟩ _ hfind
  refine ⟨msg, herr, h1, h4 "Server was unable to process request." ?_ (by decide)⟩
  unfold childText
  simp [Xml.tag, Xml.children, Xml.text]

/-- C8 counterexample: a payload whose root element is itself the
envelope-namespaced `Fault` (carrying the very fault text of the claim's
scenario) is not detected — ElementTree's `.//` search never matches the
root — so decoding succeeds with an empty row list instead of failing with
a fault error. -/
theorem extractRows_root_fault_not_detected :
    extractRows (fun _ => none) (fun _ => none) faultRootPayload
      ⟨2026, 1, 1⟩ ⟨2026, 1, 10⟩ = .ok [] ∧
    faultRootPayload.tag = nsTag soapEnvelopeNs "Fault" := by
  constructor
  · have hdesc : descOf faultRootPayload =
        [.elem "faultstring" (some "Server was unable to process request.") []] := by
      unfold faultRootPayload descOf
      simp only [Xml.children, selfAndDesc_elem, List.flatMap_cons,
        List.flatMap_nil, List.append_nil]
    unfold extractRows
    rw [hdesc]
    rfl
  · rfl

end FxVar
